import Mathlib

/-!
Shallow embedding of the llamabot `QueryBot` retrieval-augmented chat
orchestrator (`llamabot/bot/querybot.py`) and the scoped prompt recorder
(`llamabot/recorder.py`).

Messages are plain role/content values.  The vector index is an opaque
collaborator: we record only how it was constructed (fresh, loaded from
disk, or extended with inserted documents).  The chat model and the
index's `query` method are oracles passed to the call function, returning
`Except String` values so that upstream failures can be modelled.
State mutation is explicit: `queryCall` threads the whole world and, on an
exception, returns the world exactly as it stood when the exception
propagated, mirroring the Python statement order.
-/

namespace LlamaBot

/-- Chat message: langchain `SystemMessage` / `HumanMessage` / `AIMessage`,
a role together with its `content` string. -/
inductive Message where
  | system (content : String)
  | human (content : String)
  | ai (content : String)
deriving DecidableEq, Repr

/-- True exactly on system-role messages. -/
def Message.isSystem : Message → Bool
  | .system _ => true
  | _ => false

/-- A source node returned by `index.query(...).source_nodes`; we keep the
`node.text` field that the orchestrator reads. -/
structure SourceNode where
  text : String
deriving DecidableEq, Repr

/-- Opaque vector index collaborator (`GPTSimpleVectorIndex`).  We track only
its construction history: `emptyIndex` is `GPTSimpleVectorIndex(nodes=[])`,
`loadedFromDisk p` is `GPTSimpleVectorIndex.load_from_disk(p)`, and
`insertedDocs base docs` is the result of `insert_documents_into_index`
on `base` with the given document paths. -/
inductive Index where
  | emptyIndex
  | loadedFromDisk (path : String)
  | insertedDocs (base : Index) (docs : List String)
deriving DecidableEq, Repr

/-- The second construction-time system message of `QueryBot.__init__`
(the anti-hallucination instruction), verbatim. -/
def antiHallucinationText : String :=
  "Do not hallucinate content.\nIf you cannot answer something, respond by saying that you don\x27t know.\n"

/-- Orchestrator-owned state: the attributes set in `QueryBot.__init__`
that the claims are about (`system_message`, `index`, `chat_history`,
`source_nodes`).  `source_nodes` is the Python dict as an insertion-ordered
association list. -/
structure BotState where
  system_message : String
  index : Option Index
  chat_history : List Message
  source_nodes : List (String × List SourceNode)
deriving DecidableEq, Repr

/-- `QueryBot.__init__`: builds a fresh empty index, replaces it with the
index loaded from `saved_index_path` when that is given, then — following
the source's `if doc_paths is not None: ... else: ... index = None` —
either inserts the documents or discards the index entirely, and seeds the
chat history with the two fixed system messages. -/
def initQueryBot (system_message : String) (doc_paths : Option (List String))
    (saved_index_path : Option String) : BotState :=
  let index : Index := Index.emptyIndex
  let index : Index :=
    match saved_index_path with
    | some p => Index.loadedFromDisk p
    | none => index
  let index : Option Index :=
    match doc_paths with
    | some paths => some (Index.insertedDocs index paths)
    | none => none
  { system_message := system_message
    index := index
    chat_history := [Message.system system_message, Message.system antiHallucinationText]
    source_nodes := [] }

/-- One recorded prompt/response pair of a `PromptRecorder`. -/
structure RecorderEntry where
  prompt : String
  response : String
deriving DecidableEq, Repr

/-- The world: the orchestrator state plus the process-wide
`prompt_recorder` context variable (`slot`, holding the identity of the
active recorder if any) and the entry lists of all recorder objects,
keyed by identity. -/
structure World where
  bot : BotState
  slot : Option Nat
  recorders : List (Nat × List RecorderEntry)
deriving DecidableEq, Repr

/-- Wrap a freshly constructed bot in a world with no recorder active. -/
def mkWorld (b : BotState) : World :=
  { bot := b, slot := none, recorders := [] }

/-- Append `entry` to the entry list of the recorder with identity `rid`
(`PromptRecorder.log`). -/
def recordersLog (rs : List (Nat × List RecorderEntry)) (rid : Nat)
    (entry : RecorderEntry) : List (Nat × List RecorderEntry) :=
  rs.map (fun p => if p.1 = rid then (p.1, p.2 ++ [entry]) else p)

/-- `autorecord`: reads the context variable; when a recorder is active,
logs the pair on it, otherwise does nothing. -/
def autorecord (w : World) (prompt response : String) : World :=
  match w.slot with
  | some rid => { w with recorders := recordersLog w.recorders rid ⟨prompt, response⟩ }
  | none => w

/-- `PromptRecorder.__enter__` on a recorder with identity `rid`: installs
it in the context variable (registering a fresh empty entry list if this
identity is new). -/
def scopeEnter (w : World) (rid : Nat) : World :=
  { w with
    slot := some rid
    recorders :=
      if w.recorders.lookup rid = none then w.recorders ++ [(rid, [])] else w.recorders }

/-- `PromptRecorder.__exit__`: clears the context variable, ignoring the
exception information (so the slot is cleared even on error exit). -/
def scopeExit (w : World) (_exc : Option String) : World :=
  { w with slot := none }

/-- Entry list of the recorder with identity `rid`. -/
def entriesOf (w : World) (rid : Nat) : List RecorderEntry :=
  (w.recorders.lookup rid).getD []

/-- Python dict assignment `d[k] = v`: overwrite in place when the key is
present, otherwise append at the end (insertion order preserved). -/
def dictInsert (d : List (String × List SourceNode)) (k : String)
    (v : List SourceNode) : List (String × List SourceNode) :=
  if d.any (fun p => p.1 = k) then d.map (fun p => if p.1 = k then (k, v) else p)
  else d ++ [(k, v)]

/-- Step 2 of `QueryBot.__call__` (lines 126-138): the transient
`faux_chat_history`, built by successive appends exactly as in the
source. -/
def fauxChatHistory (system_message : String) (source_texts : List String)
    (query : String) : List Message :=
  let h := [Message.system system_message]
  let h := h ++ [Message.system "Here is the context you will be working with:"]
  let h := h ++ source_texts.map Message.system
  let h := h ++ [Message.system "Based on this context, answer the following query:"]
  h ++ [Message.human query]

/-- Errors surfaced by the orchestrator: `configError` is the
`ValueError` raised by `__call__` when `self.index is None`;
`noneAttribute` is the `AttributeError` from dereferencing a `None` index
in `save`; `withSuffixValueError` is the `ValueError` raised by
`Path.with_suffix` on a path with an empty final component; `upstream`
carries an unmodified collaborator error. -/
inductive BotError where
  | configError
  | noneAttribute
  | withSuffixValueError
  | upstream (e : String)
deriving DecidableEq, Repr

/-- `QueryBot.__call__`: raises the configuration error when no index is
present; otherwise queries the index, builds the transient message
sequence, invokes the chat model on it, and only then appends the human
query and the response to the history, records the source nodes, and
forwards the pair to the active recorder.  An error result carries the
world exactly as it stood when the exception propagated. -/
def queryCall (retrieve : String → Nat → Except String (List SourceNode))
    (chat : List Message → Except String String)
    (w : World) (query : String) (similarity_top_k : Nat) :
    Except (BotError × World) (World × Message) :=
  match w.bot.index with
  | none => Except.error (BotError.configError, w)
  | some _ =>
    match retrieve query similarity_top_k with
    | Except.error e => Except.error (BotError.upstream e, w)
    | Except.ok source_nodes =>
      let source_texts := source_nodes.map SourceNode.text
      let faux_chat_history := fauxChatHistory w.bot.system_message source_texts query
      match chat faux_chat_history with
      | Except.error e => Except.error (BotError.upstream e, w)
      | Except.ok content =>
        let response := Message.ai content
        let bot :=
          { w.bot with
            chat_history := w.bot.chat_history ++ [Message.human query, response]
            source_nodes := dictInsert w.bot.source_nodes query source_nodes }
        let w := autorecord { w with bot := bot } query content
        Except.ok (w, response)

/-- Index of the last occurrence of `c` in a character list (`str.rfind`),
`none` when absent. -/
def lastIdxOf (c : Char) : List Char → Option Nat
  | [] => none
  | a :: as =>
    match lastIdxOf c as with
    | some i => some (i + 1)
    | none => if a = c then some 0 else none

/-- Characters of the fixed required suffix `".json"`. -/
def jsonChars : List Char := ['.', 'j', 's', 'o', 'n']

/-- `pathlib.PurePath.suffix` on a final path component `name`:
`i = name.rfind('.')`; the slice `name[i:]` when `0 < i < len(name) - 1`,
otherwise empty. -/
def nameSuffix (name : List Char) : List Char :=
  match lastIdxOf '.' name with
  | some i => if 0 < i ∧ i < name.length - 1 then name.drop i else []
  | none => []

/-- Split a path into its directory prefix (up to and including the last
slash) and its final component, the part `pathlib` calls `name`. -/
def pathSplit (s : List Char) : List Char × List Char :=
  match lastIdxOf '/' s with
  | some i => (s.take (i + 1), s.drop (i + 1))
  | none => ([], s)

/-- `Path(p).suffix`: the suffix of the final component. -/
def suffixChars (s : List Char) : List Char :=
  nameSuffix (pathSplit s).2

/-- `Path(p).with_suffix(suf)`: replace (or, when there is none, append)
the suffix of the final component, keeping the directory prefix. -/
def withSuffixChars (s : List Char) (suf : List Char) : List Char :=
  let par := (pathSplit s).1
  let name := (pathSplit s).2
  let old := nameSuffix name
  if old = [] then par ++ name ++ suf
  else par ++ name.take (name.length - old.length) ++ suf

/-- String-level wrapper for `Path(p).suffix`. -/
def pathSuffix (p : String) : String :=
  String.mk (suffixChars p.data)

/-- String-level wrapper for `Path(p).with_suffix(suf)`. -/
def withSuffix (p : String) (suf : String) : String :=
  String.mk (withSuffixChars p.data suf.data)

/-- `QueryBot.save`: coerce the path, normalize the extension to `.json`
when it differs (`Path.with_suffix` raises a `ValueError` when the final
component is empty), then call `save_to_disk` on `self.index` — an
`AttributeError` when the index is `None`.  A successful result is the
normalized path the index is persisted to. -/
def saveBot (s : BotState) (path : String) : Except BotError String :=
  let norm : Except BotError String :=
    if pathSuffix path = ".json" then Except.ok path
    else if (pathSplit path.data).2 = [] then Except.error BotError.withSuffixValueError
    else Except.ok (withSuffix path ".json")
  match norm with
  | Except.error e => Except.error e
  | Except.ok p =>
    match s.index with
    | none => Except.error BotError.noneAttribute
    | some _ => Except.ok p

/-- `QueryBot.insert`: `self.index = insert_documents_into_index([file],
self.index, ...)`.  With a `None` index the loop dereferences `None` and
raises before any state is touched, so the state is unchanged in that
case. -/
def insertBot (s : BotState) (file : String) : BotState :=
  match s.index with
  | some i => { s with index := some (Index.insertedDocs i [file]) }
  | none => s

/-- One externally observable operation on a `QueryBot` instance.  The
`answer` operation carries the outcomes the two collaborators (index
query and chat model) would produce for it. -/
inductive Op where
  | answer (query : String) (top_k : Nat)
      (retrieved : Except String (List SourceNode)) (chatOut : Except String String)
  | insertDoc (file : String)
  | saveIndex (path : String)

/-- Run one operation, keeping whatever world results — a raising
operation leaves the world as it stood when the exception propagated. -/
def step (w : World) (op : Op) : World :=
  match op with
  | Op.answer q k retrieved chatOut =>
    match queryCall (fun _ _ => retrieved) (fun _ => chatOut) w q k with
    | Except.ok (w', _) => w'
    | Except.error (_, w') => w'
  | Op.insertDoc f => { w with bot := insertBot w.bot f }
  | Op.saveIndex _ => w

/-- Demo fixture: a bot constructed with one document source. -/
def demoBot : BotState := initQueryBot "sys" (some ["doc.txt"]) none

/-- The index value `demoBot` carries. -/
def demoIndex : Index := Index.insertedDocs Index.emptyIndex ["doc.txt"]

/-- Demo world with no recorder active. -/
def demoWorld : World := mkWorld demoBot

/-- Demo world with an active recorder of identity `0` holding no entries. -/
def demoRecWorld : World :=
  { bot := demoBot, slot := some 0, recorders := [(0, [])] }

/-- Index-query oracle returning one source node. -/
def rOk : String → Nat → Except String (List SourceNode) :=
  fun _ _ => Except.ok [SourceNode.mk "alpha"]

/-- Chat-model oracle returning the answer text "ans". -/
def cOk : List Message → Except String String :=
  fun _ => Except.ok "ans"

/-- Index-query oracle that fails with an upstream error. -/
def rErr : String → Nat → Except String (List SourceNode) :=
  fun _ _ => Except.error "boom"

/-- A world whose bot was constructed with neither documents nor a saved
index path, so its index is absent. -/
def noIndexWorld : World := mkWorld (initQueryBot "sys" none none)

/-- The world after a successful demo call with no recorder active. -/
def afterDemoWorld : World :=
  match queryCall rOk cOk demoWorld "q" 1 with
  | Except.ok (w, _) => w
  | Except.error (_, w) => w

/-- The world after a successful demo call with recorder `0` active. -/
def afterRecDemoWorld : World :=
  match queryCall rOk cOk demoRecWorld "q" 1 with
  | Except.ok (w, _) => w
  | Except.error (_, w) => w

/-! ### Helper lemmas -/

theorem lastIdxOf_append_some (c : Char) (s t : List Char) (j : Nat)
    (h : lastIdxOf c t = some j) : lastIdxOf c (s ++ t) = some (s.length + j) := by
  induction s with
  | nil => simpa using h
  | cons a as ih =>
    simp only [List.cons_append, lastIdxOf, List.append_eq, ih, List.length_cons]
    congr 1
    omega

theorem lastIdxOf_append_none (c : Char) (s t : List Char)
    (h : lastIdxOf c t = none) : lastIdxOf c (s ++ t) = lastIdxOf c s := by
  induction s with
  | nil => simpa using h
  | cons a as ih => simp only [List.cons_append, lastIdxOf, List.append_eq, ih]

theorem lastIdxOf_eq_none_iff (c : Char) (l : List Char) :
    lastIdxOf c l = none ↔ c ∉ l := by
  induction l with
  | nil => simp [lastIdxOf]
  | cons a as ih =>
    cases h : lastIdxOf c as with
    | some i =>
      have hmem : c ∈ as := by
        by_contra hc
        simp [ih.mpr hc] at h
      simp [lastIdxOf, h, List.mem_cons, hmem]
    | none =>
      have hc : c ∉ as := ih.mp h
      by_cases hac : a = c
      · simp [lastIdxOf, h, hac]
      · have hca : c ≠ a := fun hca => hac hca.symm
        simp [lastIdxOf, h, hac, hc, hca]

theorem lastIdxOf_lt_length (c : Char) (l : List Char) (i : Nat)
    (h : lastIdxOf c l = some i) : i < l.length := by
  induction l generalizing i with
  | nil => simp [lastIdxOf] at h
  | cons a as ih =>
    cases h' : lastIdxOf c as with
    | some j =>
      simp only [lastIdxOf, h', Option.some.injEq] at h
      subst h
      simp only [List.length_cons]
      exact Nat.succ_lt_succ (ih j h')
    | none =>
      simp only [lastIdxOf, h'] at h
      split at h
      · simp only [Option.some.injEq] at h
        subst h
        simp [List.length_cons]
      · exact Option.noConfusion h

theorem lastIdxOf_not_mem_drop (c : Char) (l : List Char) (i : Nat)
    (h : lastIdxOf c l = some i) : c ∉ l.drop (i + 1) := by
  induction l generalizing i with
  | nil => simp [lastIdxOf] at h
  | cons a as ih =>
    cases h' : lastIdxOf c as with
    | some j =>
      simp only [lastIdxOf, h', Option.some.injEq] at h
      subst h
      simpa [List.drop_succ_cons] using ih j h'
    | none =>
      simp only [lastIdxOf, h'] at h
      split at h
      · simp only [Option.some.injEq] at h
        subst h
        simpa [List.drop_succ_cons] using (lastIdxOf_eq_none_iff c as).mp h'
      · exact Option.noConfusion h

theorem lastIdxOf_take (c : Char) (l : List Char) (i : Nat)
    (h : lastIdxOf c l = some i) : lastIdxOf c (l.take (i + 1)) = some i := by
  induction l generalizing i with
  | nil => simp [lastIdxOf] at h
  | cons a as ih =>
    cases h' : lastIdxOf c as with
    | some j =>
      simp only [lastIdxOf, h', Option.some.injEq] at h
      subst h
      simp only [List.take_succ_cons, lastIdxOf, ih j h']
    | none =>
      simp only [lastIdxOf, h'] at h
      split at h
      next hac =>
        simp only [Option.some.injEq] at h
        subst h
        simp [lastIdxOf, hac]
      next => exact Option.noConfusion h

theorem lastIdxOf_json : lastIdxOf '.' jsonChars = some 0 := by decide

theorem slash_not_mem_json : Char.ofNat 47 ∉ jsonChars := by decide

theorem nameSuffix_append_json (t : List Char) (ht : t ≠ []) :
    nameSuffix (t ++ jsonChars) = jsonChars := by
  have h := lastIdxOf_append_some '.' t jsonChars 0 lastIdxOf_json
  rw [Nat.add_zero] at h
  have hlen : 0 < t.length := List.length_pos.mpr ht
  have hcond : 0 < t.length ∧ t.length < (t ++ jsonChars).length - 1 := by
    simp only [List.length_append]
    have hj : jsonChars.length = 5 := by decide
    omega
  simp only [nameSuffix, h, if_pos hcond]
  exact List.drop_left t jsonChars

theorem pathSplit_no_slash (s : List Char) : '/' ∉ (pathSplit s).2 := by
  unfold pathSplit
  cases h : lastIdxOf '/' s with
  | none => simpa using (lastIdxOf_eq_none_iff '/' s).mp h
  | some i => simpa using lastIdxOf_not_mem_drop '/' s i h

theorem nameSuffix_spec (name : List Char) (h : nameSuffix name ≠ []) :
    ∃ i, lastIdxOf '.' name = some i ∧ 0 < i ∧ i < name.length - 1 ∧
      nameSuffix name = name.drop i := by
  cases h' : lastIdxOf '.' name with
  | none => simp [nameSuffix, h'] at h
  | some i =>
    by_cases hc : 0 < i ∧ i < name.length - 1
    · exact ⟨i, rfl, hc.1, hc.2, by simp [nameSuffix, h', hc]⟩
    · simp [nameSuffix, h', hc] at h

theorem suffixChars_withSuffix_json (s : List Char) (hn : (pathSplit s).2 ≠ []) :
    suffixChars (withSuffixChars s jsonChars) = jsonChars := by
  obtain ⟨t, ht, hslash, heq⟩ :
      ∃ t, t ≠ [] ∧ '/' ∉ t ∧
        withSuffixChars s jsonChars = (pathSplit s).1 ++ (t ++ jsonChars) := by
    by_cases h0 : nameSuffix (pathSplit s).2 = []
    · exact ⟨(pathSplit s).2, hn, pathSplit_no_slash s, by
        simp [withSuffixChars, h0, List.append_assoc]⟩
    · obtain ⟨i, hidx, hpos, hlt, hdrop⟩ := nameSuffix_spec (pathSplit s).2 h0
      refine ⟨(pathSplit s).2.take i, ?_, ?_, ?_⟩
      · have hilen : i < (pathSplit s).2.length := by omega
        have : ((pathSplit s).2.take i).length = i := by
          simp [List.length_take]
          omega
        intro hnil
        rw [hnil] at this
        simp at this
        omega
      · intro hmem
        exact pathSplit_no_slash s (List.take_subset i (pathSplit s).2 hmem)
      · have hlen : (nameSuffix (pathSplit s).2).length = (pathSplit s).2.length - i := by
          rw [hdrop, List.length_drop]
        simp only [withSuffixChars, if_neg h0, hlen, List.append_assoc]
        have : (pathSplit s).2.length - ((pathSplit s).2.length - i) = i := by omega
        rw [this]
  rw [heq]
  have hx : lastIdxOf '/' (t ++ jsonChars) = none := by
    rw [lastIdxOf_eq_none_iff]
    intro hmem
    rcases List.mem_append.mp hmem with hmt | hmj
    · exact hslash hmt
    · exact slash_not_mem_json hmj
  cases h : lastIdxOf '/' s with
  | none =>
    have hps : pathSplit s = ([], s) := by unfold pathSplit; rw [h]
    rw [hps]
    have h2 : pathSplit ([] ++ (t ++ jsonChars)) = ([], t ++ jsonChars) := by
      unfold pathSplit
      rw [List.nil_append, hx]
    unfold suffixChars
    rw [h2]
    exact nameSuffix_append_json t ht
  | some i =>
    have hps : pathSplit s = (s.take (i + 1), s.drop (i + 1)) := by
      unfold pathSplit; rw [h]
    rw [hps]
    have hlen : (s.take (i + 1)).length = i + 1 := by
      have hil := lastIdxOf_lt_length '/' s i h
      simp [List.length_take]
      omega
    have hli : lastIdxOf '/' (s.take (i + 1) ++ (t ++ jsonChars)) = some i := by
      rw [lastIdxOf_append_none '/' _ _ hx]
      exact lastIdxOf_take '/' s i h
    have h2 : (pathSplit (s.take (i + 1) ++ (t ++ jsonChars))).2 = t ++ jsonChars := by
      unfold pathSplit
      rw [hli]
      exact List.drop_left' hlen
    unfold suffixChars
    rw [h2]
    exact nameSuffix_append_json t ht

theorem autorecord_bot (w : World) (p r : String) : (autorecord w p r).bot = w.bot := by
  cases h : w.slot <;> simp [autorecord, h]

theorem autorecord_slot (w : World) (p r : String) : (autorecord w p r).slot = w.slot := by
  cases h : w.slot <;> simp [autorecord, h]

theorem lookup_recordersLog_self (rs : List (Nat × List RecorderEntry)) (rid : Nat)
    (e : RecorderEntry) :
    (recordersLog rs rid e).lookup rid = (rs.lookup rid).map (fun l => l ++ [e]) := by
  induction rs with
  | nil => rfl
  | cons p tl ih =>
    obtain ⟨k, v⟩ := p
    by_cases hk : k = rid
    · subst hk
      have hmap : recordersLog ((k, v) :: tl) k e = (k, v ++ [e]) :: recordersLog tl k e := by
        simp [recordersLog]
      rw [hmap]
      simp [List.lookup]
    · have hmap : recordersLog ((k, v) :: tl) rid e = (k, v) :: recordersLog tl rid e := by
        simp [recordersLog, hk]
      rw [hmap]
      have hrk : (rid == k) = false := by simp [Ne.symm hk]
      simp [List.lookup, hrk, ih]

theorem lookup_recordersLog_ne (rs : List (Nat × List RecorderEntry)) (rid rid' : Nat)
    (e : RecorderEntry) (h : rid' ≠ rid) :
    (recordersLog rs rid e).lookup rid' = rs.lookup rid' := by
  induction rs with
  | nil => rfl
  | cons p tl ih =>
    obtain ⟨k, v⟩ := p
    by_cases hk : k = rid
    · subst hk
      have hmap : recordersLog ((k, v) :: tl) k e = (k, v ++ [e]) :: recordersLog tl k e := by
        simp [recordersLog]
      rw [hmap]
      have hrk : (rid' == k) = false := by simp [h]
      simp [List.lookup, hrk, ih]
    · have hmap : recordersLog ((k, v) :: tl) rid e = (k, v) :: recordersLog tl rid e := by
        simp [recordersLog, hk]
      rw [hmap]
      cases hbe : rid' == k <;> simp [List.lookup, hbe, ih]

theorem queryCall_success (retrieve : String → Nat → Except String (List SourceNode))
    (chat : List Message → Except String String) (w : World) (q : String) (k : Nat)
    (i : Index) (nodes : List SourceNode) (content : String)
    (hidx : w.bot.index = some i) (hret : retrieve q k = Except.ok nodes)
    (hchat : chat (fauxChatHistory w.bot.system_message (nodes.map SourceNode.text) q)
      = Except.ok content) :
    queryCall retrieve chat w q k =
      Except.ok
        (autorecord
          { w with
            bot :=
              { w.bot with
                chat_history :=
                  w.bot.chat_history ++ [Message.human q, Message.ai content]
                source_nodes := dictInsert w.bot.source_nodes q nodes } }
          q content,
        Message.ai content) := by
  simp only [queryCall, hidx, hret, hchat]

theorem step_chat_history_extends (w : World) (op : Op) :
    ∃ t, (step w op).bot.chat_history = w.bot.chat_history ++ t := by
  cases op with
  | insertDoc f =>
    refine ⟨[], ?_⟩
    simp only [step, insertBot, List.append_nil]
    cases w.bot.index <;> rfl
  | saveIndex p => exact ⟨[], (List.append_nil _).symm⟩
  | answer q k retrieved chatOut =>
    cases hidx : w.bot.index with
    | none => exact ⟨[], by simp [step, queryCall, hidx]⟩
    | some i =>
      cases hret : retrieved with
      | error e => exact ⟨[], by simp [step, queryCall, hidx, hret]⟩
      | ok nodes =>
        cases hchat : chatOut with
        | error e => exact ⟨[], by simp [step, queryCall, hidx, hret, hchat]⟩
        | ok content =>
          refine ⟨[Message.human q, Message.ai content], ?_⟩
          have hcall := queryCall_success (fun _ _ => Except.ok nodes)
            (fun _ => Except.ok content) w q k i nodes content hidx rfl rfl
          simp [step, hcall, autorecord_bot]

theorem foldl_chat_history_extends (ops : List Op) (w : World) :
    ∃ t, (ops.foldl step w).bot.chat_history = w.bot.chat_history ++ t := by
  induction ops generalizing w with
  | nil => exact ⟨[], (List.append_nil _).symm⟩
  | cons op tl ih =>
    obtain ⟨t1, h1⟩ := step_chat_history_extends w op
    obtain ⟨t2, h2⟩ := ih (step w op)
    exact ⟨t1 ++ t2, by rw [List.foldl_cons, h2, h1, List.append_assoc]⟩

/-! ### Claim theorems -/

/-- C1: the claim says constructing with a saved index path (and no fresh
document sources) establishes an index so that answering does not raise
the configuration error.  The code does the opposite: the `else` branch of
`if doc_paths is not None` runs when `doc_paths` is `None` even though
`saved_index_path` was given, overwriting the loaded index with `None`,
so the very next call raises the configuration error. -/
theorem saved_index_path_discarded :
    (initQueryBot "sys" none (some "idx.json")).index = none ∧
    queryCall rOk cOk (mkWorld (initQueryBot "sys" none (some "idx.json"))) "q" 3 =
      Except.error (BotError.configError, mkWorld (initQueryBot "sys" none (some "idx.json"))) := by
  exact ⟨rfl, rfl⟩

/-- C2: every successful `answer` call grows the conversation history by
exactly the two entries human query then assistant answer, and appends no
system-role message (the transient context block consists solely of
system messages): the system messages of the history are exactly those
present before the call. -/
theorem answer_appends_exactly_two
    (retrieve : String → Nat → Except String (List SourceNode))
    (chat : List Message → Except String String) (w : World) (q : String) (k : Nat)
    (i : Index) (nodes : List SourceNode) (content : String)
    (hidx : w.bot.index = some i) (hret : retrieve q k = Except.ok nodes)
    (hchat : chat (fauxChatHistory w.bot.system_message (nodes.map SourceNode.text) q)
      = Except.ok content) :
    ∃ w', queryCall retrieve chat w q k = Except.ok (w', Message.ai content) ∧
      w'.bot.chat_history = w.bot.chat_history ++ [Message.human q, Message.ai content] ∧
      ∀ m, Message.isSystem m = true →
        (m ∈ w'.bot.chat_history ↔ m ∈ w.bot.chat_history) := by
  refine ⟨_, queryCall_success retrieve chat w q k i nodes content hidx hret hchat, ?_, ?_⟩
  · rw [autorecord_bot]
  · intro m hm
    rw [autorecord_bot]
    show m ∈ w.bot.chat_history ++ [Message.human q, Message.ai content] ↔
      m ∈ w.bot.chat_history
    constructor
    · intro h
      rcases List.mem_append.mp h with h1 | h2
      · exact h1
      · exfalso
        simp only [List.mem_cons, List.not_mem_nil, or_false] at h2
        rcases h2 with h2 | h2 <;> (subst h2; simp [Message.isSystem] at hm)
    · exact fun h => List.mem_append.mpr (Or.inl h)

/-- C2 witness. -/
theorem answer_appends_exactly_two_witness :
    afterDemoWorld.bot.chat_history =
      [Message.system "sys", Message.system antiHallucinationText,
       Message.human "q", Message.ai "ans"] := by
  obtain ⟨w', hq, hh, _⟩ := answer_appends_exactly_two rOk cOk demoWorld "q" 1 demoIndex
    [SourceNode.mk "alpha"] "ans" rfl rfl rfl
  have hw : afterDemoWorld = w' := by
    simp [afterDemoWorld, hq]
  rw [hw, hh]
  rfl

/-- C3: when the orchestrator has no index, `answer` raises the
configuration error with the world unchanged; the result does not depend
on the collaborator oracles, so no model call is attempted. -/
theorem no_index_config_error
    (retrieve : String → Nat → Except String (List SourceNode))
    (chat : List Message → Except String String) (w : World) (q : String) (k : Nat)
    (h : w.bot.index = none) :
    queryCall retrieve chat w q k = Except.error (BotError.configError, w) := by
  simp [queryCall, h]

/-- C3 witness. -/
theorem no_index_config_error_witness :
    queryCall rOk cOk noIndexWorld "q" 3 = Except.error (BotError.configError, noIndexWorld) :=
  no_index_config_error rOk cOk noIndexWorld "q" 3 rfl

/-- C4: when the index query or the chat-model invocation raises, the
error propagates unchanged as an upstream error and the world carried by
the exception is exactly the input world: history and query record are
untouched because the appends happen only after the full answer is
obtained. -/
theorem collaborator_error_leaves_state
    (retrieve : String → Nat → Except String (List SourceNode))
    (chat : List Message → Except String String) (w : World) (q : String) (k : Nat)
    (i : Index) (hidx : w.bot.index = some i) :
    (∀ e, retrieve q k = Except.error e →
      queryCall retrieve chat w q k = Except.error (BotError.upstream e, w)) ∧
    (∀ nodes e, retrieve q k = Except.ok nodes →
      chat (fauxChatHistory w.bot.system_message (nodes.map SourceNode.text) q)
        = Except.error e →
      queryCall retrieve chat w q k = Except.error (BotError.upstream e, w)) := by
  constructor
  · intro e he
    simp [queryCall, hidx, he]
  · intro nodes e hn hc
    simp [queryCall, hidx, hn, hc]

/-- C4 witness. -/
theorem collaborator_error_leaves_state_witness :
    queryCall rErr cOk demoWorld "q" 3 = Except.error (BotError.upstream "boom", demoWorld) :=
  (collaborator_error_leaves_state rErr cOk demoWorld "q" 3 demoIndex rfl).1 "boom" rfl

/-- C5: the transient message sequence is, in order, the system
instruction, the context marker, one system message per retrieved chunk
in index order, the query marker, then the human query; and the outcome
of a call is determined by the chat model's value on exactly that
sequence, so that sequence is what is sent to the model. -/
theorem transient_sequence_shape
    (retrieve : String → Nat → Except String (List SourceNode))
    (w : World) (q : String) (k : Nat) (i : Index) (nodes : List SourceNode)
    (hidx : w.bot.index = some i) (hret : retrieve q k = Except.ok nodes) :
    fauxChatHistory w.bot.system_message (nodes.map SourceNode.text) q =
      Message.system w.bot.system_message ::
      Message.system "Here is the context you will be working with:" ::
      ((nodes.map SourceNode.text).map Message.system ++
        [Message.system "Based on this context, answer the following query:",
         Message.human q]) ∧
    ∀ chat₁ chat₂ : List Message → Except String String,
      chat₁ (fauxChatHistory w.bot.system_message (nodes.map SourceNode.text) q) =
        chat₂ (fauxChatHistory w.bot.system_message (nodes.map SourceNode.text) q) →
      queryCall retrieve chat₁ w q k = queryCall retrieve chat₂ w q k := by
  constructor
  · simp [fauxChatHistory]
  · intro chat₁ chat₂ h
    simp only [queryCall, hidx, hret, h]

/-- C5 witness. -/
theorem transient_sequence_shape_witness :
    fauxChatHistory "sys" ["alpha"] "q" =
      [Message.system "sys",
       Message.system "Here is the context you will be working with:",
       Message.system "alpha",
       Message.system "Based on this context, answer the following query:",
       Message.human "q"] := by
  have h := (transient_sequence_shape rOk demoWorld "q" 1 demoIndex
    [SourceNode.mk "alpha"] rfl rfl).1
  exact h

/-- C6: while a recorder is active, a successful `answer` call appends
exactly one entry (query, final answer text) to that recorder and leaves
every other recorder untouched; scope exit always clears the active-slot
context variable (also on error); and with no active recorder the
forwarding step is a no-op on all recorders. -/
theorem recorder_scope_logging
    (retrieve : String → Nat → Except String (List SourceNode))
    (chat : List Message → Except String String) (w : World) (q : String) (k : Nat)
    (i : Index) (nodes : List SourceNode) (content : String)
    (hidx : w.bot.index = some i) (hret : retrieve q k = Except.ok nodes)
    (hchat : chat (fauxChatHistory w.bot.system_message (nodes.map SourceNode.text) q)
      = Except.ok content) :
    (∀ rid es, w.slot = some rid → w.recorders.lookup rid = some es →
      ∃ w', queryCall retrieve chat w q k = Except.ok (w', Message.ai content) ∧
        entriesOf w' rid = es ++ [RecorderEntry.mk q content] ∧
        ∀ rid', rid' ≠ rid → entriesOf w' rid' = entriesOf w rid') ∧
    (∀ w₀ exc, (scopeExit w₀ exc).slot = none) ∧
    (w.slot = none →
      ∃ w', queryCall retrieve chat w q k = Except.ok (w', Message.ai content) ∧
        w'.recorders = w.recorders) := by
  refine ⟨?_, ?_, ?_⟩
  · intro rid es hslot hreg
    refine ⟨_, queryCall_success retrieve chat w q k i nodes content hidx hret hchat, ?_, ?_⟩
    · unfold entriesOf autorecord
      simp only [hslot]
      rw [lookup_recordersLog_self, hreg]
      rfl
    · intro rid' hne
      unfold entriesOf autorecord
      simp only [hslot]
      rw [lookup_recordersLog_ne _ _ _ _ hne]
  · intro w₀ exc
    rfl
  · intro hslot
    refine ⟨_, queryCall_success retrieve chat w q k i nodes content hidx hret hchat, ?_⟩
    unfold autorecord
    simp only [hslot]

/-- C6 witness. -/
theorem recorder_scope_logging_witness :
    entriesOf afterRecDemoWorld 0 = [RecorderEntry.mk "q" "ans"] := by
  obtain ⟨w', hq, he, _⟩ :=
    (recorder_scope_logging rOk cOk demoRecWorld "q" 1 demoIndex
      [SourceNode.mk "alpha"] "ans" rfl rfl rfl).1 0 [] rfl rfl
  have hw : afterRecDemoWorld = w' := by
    simp [afterRecDemoWorld, hq]
  rw [hw, he]
  rfl

/-- C7: `save` leaves a path whose extension is already `.json` unchanged
and replaces any other extension with `.json` before persisting, so the
persisted path always carries the `.json` suffix. -/
theorem save_normalizes_extension (s : BotState) (i : Index) (path : String)
    (hidx : s.index = some i) (hname : (pathSplit path.data).2 ≠ []) :
    (pathSuffix path = ".json" → saveBot s path = Except.ok path) ∧
    (pathSuffix path ≠ ".json" →
      saveBot s path = Except.ok (withSuffix path ".json") ∧
      pathSuffix (withSuffix path ".json") = ".json") := by
  constructor
  · intro h
    simp [saveBot, h, hidx]
  · intro h
    constructor
    · simp [saveBot, h, hname, hidx]
    · show String.mk (suffixChars (withSuffixChars path.data (String.data ".json"))) = ".json"
      have hd : String.data ".json" = jsonChars := by decide
      rw [hd, suffixChars_withSuffix_json path.data hname]
      decide

/-- C7 witness. -/
theorem save_normalizes_extension_witness :
    pathSuffix "index.bin" ≠ ".json" ∧
    saveBot demoBot "index.bin" = Except.ok "index.json" := by
  have h := (save_normalizes_extension demoBot demoIndex "index.bin" rfl (by decide)).2
    (by decide)
  refine ⟨by decide, ?_⟩
  rw [h.1]
  have hw : withSuffix "index.bin" ".json" = "index.json" := by decide
  rw [hw]

/-- C8: after any sequence of answer, insert and save operations, the
first two entries of the conversation history are still exactly the two
system messages created by the constructor. -/
theorem history_prefix_invariant (sm : String) (dp : Option (List String))
    (sp : Option String) (ops : List Op) :
    ((ops.foldl step (mkWorld (initQueryBot sm dp sp))).bot.chat_history).take 2 =
      [Message.system sm, Message.system antiHallucinationText] := by
  obtain ⟨t, ht⟩ := foldl_chat_history_extends ops (mkWorld (initQueryBot sm dp sp))
  rw [ht]
  exact List.take_left' rfl

/-- C9: calling `save` with no index established persists nothing and
fails with the attribute error from dereferencing the absent index, not
with the configuration error that `answer` reserves for that situation. -/
theorem save_without_index_attribute_error (s : BotState) (path : String)
    (hidx : s.index = none) (hname : (pathSplit path.data).2 ≠ []) :
    saveBot s path = Except.error BotError.noneAttribute ∧
    BotError.noneAttribute ≠ BotError.configError := by
  constructor
  · by_cases h : pathSuffix path = ".json" <;> simp [saveBot, h, hname, hidx]
  · intro h
    exact BotError.noConfusion h

/-- C9 witness. -/
theorem save_without_index_attribute_error_witness :
    saveBot (initQueryBot "sys" none none) "index.bin" =
      Except.error BotError.noneAttribute :=
  (save_without_index_attribute_error (initQueryBot "sys" none none) "index.bin"
    rfl (by decide)).1

/-- C10: the anti-hallucination instruction is permanently the second
entry of the conversation history, yet the transient sequence starts with
the caller-supplied system instruction and never contains the
anti-hallucination message (whenever neither the caller-supplied
instruction nor a retrieved chunk textually coincides with it), so the
model never sees that second instruction. -/
theorem transient_never_contains_second_instruction
    (sm q : String) (texts : List String) (dp : Option (List String))
    (sp : Option String)
    (h1 : sm ≠ antiHallucinationText) (h2 : antiHallucinationText ∉ texts) :
    Message.system antiHallucinationText ∈ (initQueryBot sm dp sp).chat_history ∧
    (fauxChatHistory sm texts q).head? = some (Message.system sm) ∧
    Message.system antiHallucinationText ∉ fauxChatHistory sm texts q := by
  refine ⟨?_, rfl, ?_⟩
  · simp [initQueryBot]
  · have hsm : antiHallucinationText ≠ sm := fun h => h1 h.symm
    have hm1 : antiHallucinationText ≠ "Here is the context you will be working with:" := by
      decide
    have hm2 : antiHallucinationText ≠ "Based on this context, answer the following query:" := by
      decide
    simp [fauxChatHistory, hsm, hm1, hm2, h2]

/-- C10 witness. -/
theorem transient_never_contains_second_instruction_witness :
    Message.system antiHallucinationText ∉ fauxChatHistory "sys" ["alpha"] "q" :=
  (transient_never_contains_second_instruction "sys" "q" ["alpha"] (some ["doc.txt"]) none
    (by decide) (by decide)).2.2

end LlamaBot
